import Mathlib

/-!
Shallow embedding of the state-management core of the random-food bot
(src/src/utils.js), together with proofs checking the natural-language
specification against it.

Files are modelled as explicit values threaded through the functions:
the catalog file as `Option (List String)` (its physical lines, `none`
when the file is missing), the suggestion-cache file as `CacheFile`, the
admin JSON file as `AdminFile` and the restricted-users JSON file as
`RestrictedFile`.  Timestamps are `Int` milliseconds since the epoch and
the random draw of `Math.floor(Math.random() * foods.length)` is an
oracle parameter `rand : Nat`, reduced modulo the list length.
-/

namespace FoodBot

/-- Model of JavaScript `String.prototype.trim` on the character list:
drop whitespace from the front, then from the back. -/
def trimChars (l : List Char) : List Char :=
  ((l.dropWhile Char.isWhitespace).reverse.dropWhile Char.isWhitespace).reverse

/-- JavaScript `s.trim()`. -/
def jsTrim (s : String) : String := ⟨trimChars s.data⟩

/-- JavaScript `s.toLowerCase()`, modelled characterwise. -/
def jsLower (s : String) : String := ⟨s.data.map Char.toLower⟩

/-- JavaScript `username.startsWith("@") ? username.slice(1) : username`. -/
def stripAt (u : String) : String :=
  match u.data with
  | '@' :: rest => ⟨rest⟩
  | _ => u

/-- Boolean lexicographic comparison of character lists, the comparison
JavaScript `Array.prototype.sort()` applies to strings. -/
def lexLe : List Char → List Char → Bool
  | [], _ => true
  | _ :: _, [] => false
  | a :: as, b :: bs => if a < b then true else if b < a then false else lexLe as bs

/-- Order used by the catalog-sorting code (`existingFoods.sort()`). -/
def jsLe (a b : String) : Prop := lexLe a.data b.data = true

instance : DecidableRel jsLe := fun _ _ => inferInstanceAs (Decidable (_ = true))

/-- JavaScript `existingFoods.sort()`: lexicographic, modelled by a stable
insertion sort under `jsLe`. -/
def jsSort (l : List String) : List String := l.insertionSort jsLe

/-- Substring test on character lists, for `haystack.includes(needle)`. -/
def containsSub (needle : List Char) : List Char → Bool
  | [] => needle.isEmpty
  | c :: t => needle.isPrefixOf (c :: t) || containsSub needle t

/-- JavaScript `hay.includes(needle)`. -/
def jsIncludes (hay needle : String) : Bool := containsSub needle.data hay.data

/-- Insertion-ordered deduplication, the semantics of
`Array.from(new Set(list))` in `loadAdmins`: keeps the first occurrence of
each string, comparing by exact (case-sensitive) equality. -/
def jsSetDedup (l : List String) : List String :=
  l.foldl (fun acc x => if x ∈ acc then acc else acc ++ [x]) []

/-- Result shape `{success, message}` returned by the mutating operations. -/
structure CmdResult where
  success : Bool
  message : String
deriving DecidableEq

/-- Cache duration constant from src/src/config.js: 12 hours in ms. -/
def CACHE_DURATION_MS : Int := 12 * 60 * 60 * 1000

/-- Contents of the food-cache JSON file.  `missing` is an absent file,
`malformed` any content that `JSON.parse` rejects or that lacks the
`food`/`timestamp` fields, and `entry f t` the object
`{ "food": f, "timestamp": t }` (the only shape the code ever writes). -/
inductive CacheFile where
  | missing
  | malformed
  | entry (food : String) (timestamp : Int)
deriving DecidableEq

/-- Contents of the catalog text file: `none` when the file is missing,
otherwise the list of physical lines. -/
abbrev FoodFile := Option (List String)

/-- Embeds `loadFoodCache` (src/src/utils.js:47-59): a missing file and an
unparsable file both yield the empty object, so the function is total and
never propagates a parse error. -/
def loadFoodCache : CacheFile → Option (String × Int)
  | .missing => none
  | .malformed => none
  | .entry f t => some (f, t)

/-- Embeds `saveFoodCache` (src/src/utils.js:65-74). -/
def saveFoodCache (food : String) (now : Int) : CacheFile :=
  CacheFile.entry food now

/-- Embeds `clearFoodCache` (src/src/utils.js:79-88): unlinks the file. -/
def clearFoodCache : CacheFile → CacheFile := fun _ => CacheFile.missing

/-- Embeds `loadFoodList` (src/src/utils.js:95-117): split the file into
lines, trim each line, keep the non-empty ones; a missing file is empty. -/
def loadFoodList : FoodFile → List String
  | none => []
  | some lines => (lines.map jsTrim).filter (fun l => decide (0 < l.length))

/-- Embeds `getRandomFood` (src/src/utils.js:126-159).  `rand` is the
random oracle; the returned pair is the result and the cache file after
the call. -/
def getRandomFood (forceNew : Bool) (now : Int) (rand : Nat)
    (cat : FoodFile) (cf : CacheFile) : Option String × CacheFile :=
  let cachedHit : Option String :=
    if forceNew then none
    else
      match loadFoodCache cf with
      | some (food, ts) =>
        if food ≠ "" ∧ now - ts < CACHE_DURATION_MS then some food else none
      | none => none
  match cachedHit with
  | some food => (some food, cf)
  | none =>
    let foods := loadFoodList cat
    if foods.isEmpty then (none, cf)
    else
      let food := foods.getD (rand % foods.length) ""
      (some food, saveFoodCache food now)

/-- Effect of `appendFileSync(filePath, "\n" + trimmedFood)` on the
catalog file: a missing file is created holding a newline followed by the
item, an existing file gains one line. -/
def appendLine (cat : FoodFile) (x : String) : FoodFile :=
  match cat with
  | none => some (["", x])
  | some lines => some (lines ++ [x])

/-- Embeds `addFoodToList` (src/src/utils.js:167-188). -/
def addFoodToList (food : String) (cat : FoodFile) : Bool × FoodFile :=
  let existingFoods := loadFoodList cat
  let trimmedFood := jsTrim food
  if existingFoods.contains trimmedFood then (false, cat)
  else (true, appendLine cat trimmedFood)

/-- Condition under which `removeFoodFromList` clears the cache: the
cache object has a truthy `food` field whose lowercase form is among the
removed matches (src/src/utils.js:247-254). -/
def cachedAmong (cf : CacheFile) (ms : List String) : Bool :=
  match loadFoodCache cf with
  | some (f, _) => f != "" && ms.any (fun m => jsLower m == jsLower f)
  | none => false

/-- Renders one suggestion as `'item'` for the fuzzy-match message. -/
def quoteItem (m : String) : String := "'" ++ m ++ "'"

/-- The `matchStr` of src/src/utils.js:217-220. -/
def fuzzyListText (l : List String) : String :=
  String.intercalate (", ") (l.map quoteItem)

/-- The `moreText` of src/src/utils.js:221-224. -/
def moreText (n : Nat) : String :=
  if 5 < n then " (and " ++ toString (n - 5) ++ " more)" else ""

/-- Embeds `removeFoodFromList` (src/src/utils.js:196-272).  Returns the
result together with the catalog file and cache file after the call. -/
def removeFoodFromList (food : String) (cat : FoodFile) (cf : CacheFile) :
    CmdResult × FoodFile × CacheFile :=
  let existingFoods := loadFoodList cat
  if existingFoods.isEmpty then (⟨false, "Food list is empty"⟩, cat, cf)
  else
    let trimmedFood := jsTrim food
    let foodLower := jsLower trimmedFood
    let exactMatches := existingFoods.filter (fun f => jsLower f == foodLower)
    if exactMatches.isEmpty then
      let closeMatches := existingFoods.filter (fun f => jsIncludes (jsLower f) foodLower)
      if closeMatches.isEmpty then
        (⟨false, "Food '" ++ food ++ "' not found in the list"⟩, cat, cf)
      else
        (⟨false, "Food '" ++ food ++ "' not found exactly. Did you mean one of: " ++
          fuzzyListText (closeMatches.take 5) ++ moreText closeMatches.length⟩, cat, cf)
    else
      let updatedFoods := existingFoods.filter (fun f => !(jsLower f == foodLower))
      let newCache := if cachedAmong cf exactMatches then CacheFile.missing else cf
      if 1 < exactMatches.length then
        (⟨true, "Removed " ++ toString exactMatches.length ++ " items matching '" ++ food ++ "'"⟩,
          some updatedFoods, newCache)
      else
        (⟨true, "Removed '" ++ exactMatches.headD "" ++ "' from the food list"⟩,
          some updatedFoods, newCache)

/-- Embeds `removeFoodByIndex` (src/src/utils.js:280-327). -/
def removeFoodByIndex (index : Int) (cat : FoodFile) (cf : CacheFile) :
    CmdResult × FoodFile × CacheFile :=
  let existingFoods := loadFoodList cat
  if existingFoods.isEmpty then (⟨false, "Food list is empty"⟩, cat, cf)
  else
    let sorted := jsSort existingFoods
    let zeroIndex := index - 1
    if zeroIndex < 0 ∨ (sorted.length : Int) ≤ zeroIndex then
      (⟨false, "Invalid index. Please use a number between 1 and " ++ toString sorted.length⟩,
        cat, cf)
    else
      let removedFood := sorted.getD zeroIndex.toNat ""
      let remaining := sorted.eraseIdx zeroIndex.toNat
      let newCache :=
        match loadFoodCache cf with
        | some (f, _) => if f != "" && (jsLower f == jsLower removedFood)
            then CacheFile.missing else cf
        | none => cf
      (⟨true, "Removed '" ++ removedFood ++ "' from the food list"⟩, some remaining, newCache)

/-- Default admin seed list from src/src/config.js. -/
def DEFAULT_ADMINS : List String := ["nguyenviet02"]

/-- Legacy restricted seed list from src/src/config.js. -/
def RESTRICTED_USERS : List String := ["phuongtung99"]

/-- One element of the parsed admin JSON array: either a string or a
value of any other JSON type (which `loadAdmins` maps to `""`). -/
inductive JVal where
  | str (s : String)
  | other
deriving DecidableEq

/-- Contents of the admin JSON file: absent, unparsable, parsable but not
an array, or an array of JSON values. -/
inductive AdminFile where
  | missing
  | malformed
  | nonarray
  | arr (l : List JVal)
deriving DecidableEq

/-- The element normalization of `loadAdmins`:
`typeof u === "string" ? u.trim() : ""`. -/
def entryNorm : JVal → String
  | .str s => jsTrim s
  | .other => ""

/-- Embeds `loadAdmins` (src/src/utils.js:411-432): a missing or
unparsable file yields the seed list; otherwise the seeds are prepended,
every entry trimmed (non-strings become `""`), the whole deduplicated in
insertion order by exact equality, and empties filtered out. -/
def loadAdmins : AdminFile → List String
  | .missing => DEFAULT_ADMINS
  | .malformed => DEFAULT_ADMINS
  | .nonarray =>
    (jsSetDedup ((DEFAULT_ADMINS.map JVal.str).map entryNorm)).filter (fun s => s != "")
  | .arr l =>
    (jsSetDedup ((DEFAULT_ADMINS.map JVal.str ++ l).map entryNorm)).filter (fun s => s != "")

/-- Embeds `saveAdmins` (src/src/utils.js:439-442). -/
def saveAdmins (admins : List String) : AdminFile :=
  AdminFile.arr (admins.map JVal.str)

/-- Embeds `isAdmin` (src/src/utils.js:449-458). -/
def isAdmin (username : String) (af : AdminFile) : Bool :=
  if username = "" then false
  else
    let cleanUsername := jsLower (stripAt username)
    (loadAdmins af).any (fun u => jsLower u == cleanUsername)

/-- Embeds `addAdmin` (src/src/utils.js:465-482). -/
def addAdmin (username : String) (af : AdminFile) : CmdResult × AdminFile :=
  if username = "" then (⟨false, "Please provide a username"⟩, af)
  else
    let cleanUsername := stripAt username
    let admins := loadAdmins af
    let usernameLower := jsLower cleanUsername
    if admins.any (fun u => jsLower u == usernameLower) then
      (⟨false, "@" ++ cleanUsername ++ " is already an admin"⟩, af)
    else
      (⟨true, "👑 Added @" ++ cleanUsername ++ " as admin"⟩,
        saveAdmins (admins ++ [cleanUsername]))

/-- Embeds `removeAdmin` (src/src/utils.js:489-507). -/
def removeAdmin (username : String) (af : AdminFile) : CmdResult × AdminFile :=
  if username = "" then (⟨false, "Please provide a username"⟩, af)
  else
    let cleanUsername := stripAt username
    let admins := loadAdmins af
    let usernameLower := jsLower cleanUsername
    match admins.findIdx? (fun u => jsLower u == usernameLower) with
    | none => (⟨false, "@" ++ cleanUsername ++ " is not an admin"⟩, af)
    | some i =>
      (⟨true, "Removed @" ++ cleanUsername ++ " from admins"⟩,
        saveAdmins (admins.eraseIdx i))

/-- Contents of the restricted-users JSON file. -/
inductive RestrictedFile where
  | missing
  | malformed
  | stored (l : List String)
deriving DecidableEq

/-- Embeds `saveRestrictedUsersToDB` (src/src/utils.js:565-568). -/
def saveRestrictedUsersToDB (users : List String) : RestrictedFile :=
  RestrictedFile.stored users

/-- Embeds `loadRestrictedUsersFromDB` (src/src/utils.js:543-558): a
missing file is initialized (written through) with the legacy seed list,
an unparsable file yields the seed list without a write, and otherwise
the parsed array is returned as is.  The pair carries the file state
after the call because of the write-through initialization. -/
def loadRestrictedUsersFromDB : RestrictedFile → List String × RestrictedFile
  | .missing => (RESTRICTED_USERS, saveRestrictedUsersToDB RESTRICTED_USERS)
  | .malformed => (RESTRICTED_USERS, RestrictedFile.malformed)
  | .stored l => (l, RestrictedFile.stored l)

/-- Embeds `isRestrictedUser` (src/src/utils.js:360-382). -/
def isRestrictedUser (username : String) (rf : RestrictedFile) :
    Bool × RestrictedFile :=
  if username = "" then (false, rf)
  else
    let usernameLower := jsLower (stripAt username)
    let loaded := loadRestrictedUsersFromDB rf
    ((loaded.1).any (fun u => jsLower u == usernameLower), loaded.2)

/-- Embeds `addRestrictedUser` (src/src/utils.js:575-592). -/
def addRestrictedUser (username : String) (rf : RestrictedFile) :
    CmdResult × RestrictedFile :=
  if username = "" then (⟨false, "Please provide a username"⟩, rf)
  else
    let cleanUsername := stripAt username
    let loaded := loadRestrictedUsersFromDB rf
    let users := loaded.1
    let usernameLower := jsLower cleanUsername
    if users.any (fun u => jsLower u == usernameLower) then
      (⟨false, "@" ++ cleanUsername ++ " is already restricted"⟩, loaded.2)
    else
      (⟨true, "🚫 Đã hạn chế @" ++ cleanUsername⟩,
        saveRestrictedUsersToDB (users ++ [cleanUsername]))

/-- Embeds `removeRestrictedUser` (src/src/utils.js:599-617). -/
def removeRestrictedUser (username : String) (rf : RestrictedFile) :
    CmdResult × RestrictedFile :=
  if username = "" then (⟨false, "Please provide a username"⟩, rf)
  else
    let cleanUsername := stripAt username
    let loaded := loadRestrictedUsersFromDB rf
    let users := loaded.1
    let usernameLower := jsLower cleanUsername
    match users.findIdx? (fun u => jsLower u == usernameLower) with
    | none => (⟨false, "@" ++ cleanUsername ++ " is not in the restricted list"⟩, loaded.2)
    | some i =>
      (⟨true, "✅ Đã bỏ hạn chế @" ++ cleanUsername⟩,
        saveRestrictedUsersToDB (users.eraseIdx i))

/-- The full role-registry state: the two backing files.  The registry
operations of src/src/utils.js each read and write exactly one of them. -/
structure Registry where
  admins : AdminFile
  restricted : RestrictedFile
deriving DecidableEq

/-- `addAdmin` lifted to the whole registry state: the source function
touches only the admin file, so the restricted file passes through. -/
def addAdminR (username : String) (st : Registry) : CmdResult × Registry :=
  ((addAdmin username st.admins).1, ⟨(addAdmin username st.admins).2, st.restricted⟩)

/-- One registry mutation, as dispatched by src/src/adminCommands.js. -/
inductive RegistryOp where
  | addAdm (u : String)
  | removeAdm (u : String)
  | addRes (u : String)
  | removeRes (u : String)

/-- State transition of a single registry operation. -/
def applyRegistryOp (st : Registry) : RegistryOp → Registry
  | .addAdm u => ⟨(addAdmin u st.admins).2, st.restricted⟩
  | .removeAdm u => ⟨(removeAdmin u st.admins).2, st.restricted⟩
  | .addRes u => ⟨st.admins, (addRestrictedUser u st.restricted).2⟩
  | .removeRes u => ⟨st.admins, (removeRestrictedUser u st.restricted).2⟩

/-- Runs a finite sequence of registry operations from a state. -/
def runRegistryOps (st : Registry) (ops : List RegistryOp) : Registry :=
  ops.foldl applyRegistryOp st

/-! ### Basic lemmas about the string primitives -/

theorem dropWhile_self_drop (p : Char → Bool) (l : List Char) :
    (l.dropWhile p).dropWhile p = l.dropWhile p := by
  induction l with
  | nil => rfl
  | cons x xs ih => by_cases h : p x <;> simp [List.dropWhile_cons, h, ih]

theorem dropWhile_fix_of_isPre (p : Char → Bool) {l₁ l₂ : List Char}
    (hp : l₂ <+: l₁) (h : l₁.dropWhile p = l₁) : l₂.dropWhile p = l₂ := by
  cases l₂ with
  | nil => rfl
  | cons x t =>
    obtain ⟨r, hr⟩ := hp
    subst hr
    have hx : p x = false := by
      by_contra hx
      rw [Bool.not_eq_false] at hx
      rw [List.cons_append, List.dropWhile_cons, if_pos hx] at h
      have hle : (List.dropWhile p (t ++ r)).length ≤ (t ++ r).length :=
        (List.dropWhile_suffix p).sublist.length_le
      rw [h] at hle
      simp at hle
    simp [List.dropWhile_cons, hx]

theorem trimChars_trimChars (l : List Char) :
    trimChars (trimChars l) = trimChars l := by
  have key : ∀ A : List Char, A.dropWhile Char.isWhitespace = A →
      trimChars ((A.reverse.dropWhile Char.isWhitespace).reverse)
        = (A.reverse.dropWhile Char.isWhitespace).reverse := by
    intro A hA
    have hpre : (A.reverse.dropWhile Char.isWhitespace).reverse <+: A := by
      have hsuf : A.reverse.dropWhile Char.isWhitespace <:+ A.reverse :=
        List.dropWhile_suffix _
      have h2 : (A.reverse.dropWhile Char.isWhitespace).reverse.reverse <:+ A.reverse := by
        simpa using hsuf
      exact List.reverse_suffix.mp h2
    have hBfix : (A.reverse.dropWhile Char.isWhitespace).reverse.dropWhile Char.isWhitespace
        = (A.reverse.dropWhile Char.isWhitespace).reverse :=
      dropWhile_fix_of_isPre _ hpre hA
    unfold trimChars
    rw [hBfix, List.reverse_reverse, dropWhile_self_drop]
  have h0 : trimChars l
      = ((l.dropWhile Char.isWhitespace).reverse.dropWhile Char.isWhitespace).reverse := rfl
  rw [h0]
  exact key _ (dropWhile_self_drop _ l)

theorem jsTrim_jsTrim (s : String) : jsTrim (jsTrim s) = jsTrim s :=
  congrArg String.mk (trimChars_trimChars s.data)

theorem jsTrim_of_whitespace (s : String)
    (h : ∀ c ∈ s.data, c.isWhitespace = true) : jsTrim s = "" := by
  have h1 : s.data.dropWhile Char.isWhitespace = [] :=
    List.dropWhile_eq_nil_iff.mpr h
  show String.mk (trimChars s.data) = ""
  rw [show trimChars s.data = [] from by simp [trimChars, h1]]

theorem string_ne_empty_of_length_pos {s : String} (h : 0 < s.length) :
    s ≠ "" := by
  intro he
  subst he
  simp at h

/-- Every element the catalog load returns is non-empty and trim-fixed. -/
theorem mem_loadFoodList {cat : FoodFile} {s : String}
    (h : s ∈ loadFoodList cat) : s ≠ "" ∧ jsTrim s = s := by
  cases cat with
  | none => simp [loadFoodList] at h
  | some lines =>
    unfold loadFoodList at h
    obtain ⟨hmem, hlen⟩ := List.mem_filter.mp h
    obtain ⟨l, _, hl⟩ := List.mem_map.mp hmem
    refine ⟨string_ne_empty_of_length_pos (of_decide_eq_true hlen), ?_⟩
    rw [← hl]
    exact jsTrim_jsTrim l

/-! ### Claim theorems -/

/-- Claim C10: every string returned by the catalog load (`loadFoodList`)
is non-empty and equal to its own trim, and adding a whitespace-only item
with `addFoodToList` returns `true` while a subsequent load is unchanged
(a blank line is appended to the file but filtered out on load). -/
theorem c10_loadAll_trim_invariant :
    (∀ (cat : FoodFile) (s : String), s ∈ loadFoodList cat → s ≠ "" ∧ jsTrim s = s) ∧
    (∀ (food : String) (cat : FoodFile), (∀ c ∈ food.data, c.isWhitespace = true) →
      (addFoodToList food cat).1 = true ∧
      loadFoodList (addFoodToList food cat).2 = loadFoodList cat) := by
  constructor
  · intro cat s h
    exact mem_loadFoodList h
  · intro food cat hws
    have htrim : jsTrim food = "" := jsTrim_of_whitespace food hws
    have hnotmem : jsTrim food ∉ loadFoodList cat := by
      rw [htrim]
      intro hc
      exact (mem_loadFoodList hc).1 rfl
    have hstep : addFoodToList food cat = (true, appendLine cat (jsTrim food)) := by
      simp [addFoodToList, hnotmem]
    rw [hstep, htrim]
    refine ⟨rfl, ?_⟩
    cases cat with
    | none => rfl
    | some lines =>
      show loadFoodList (some (lines ++ [""])) = loadFoodList (some lines)
      simp only [loadFoodList]
      rw [List.map_append, List.filter_append]
      rw [show List.filter (fun l => decide (0 < l.length)) (List.map jsTrim [""]) = []
        from rfl]
      simp

/-- Witness for C10 on a concrete catalog and a whitespace-only input. -/
theorem c10_loadAll_trim_invariant_witness :
    ("Pho" ≠ "" ∧ jsTrim ("Pho") = "Pho") ∧
    ((addFoodToList (" ") (some ["Pho"])).1 = true ∧
      loadFoodList (addFoodToList (" ") (some ["Pho"])).2 = loadFoodList (some ["Pho"])) :=
  ⟨c10_loadAll_trim_invariant.1 (some ["Pho"]) ("Pho") (by decide),
    c10_loadAll_trim_invariant.2 (" ") (some ["Pho"]) (by decide)⟩

/-- The element drawn by the selection branch of `getRandomFood` belongs
to the loaded catalog. -/
theorem getD_mod_mem {l : List String} (h : l ≠ []) (r : Nat) :
    l.getD (r % l.length) "" ∈ l := by
  have hidx : r % l.length < l.length := Nat.mod_lt _ (List.length_pos.mpr h)
  rw [List.getD_eq_getElem?_getD, List.getElem?_eq_getElem hidx]
  simp

/-- A food returned together with a freshly stamped cache entry by a
non-forced `getRandomFood` call is never the empty string: a cache hit
requires a truthy `food` field and a selected food is a non-empty catalog
element. -/
theorem getRandomFood_persist_ne_empty {now t : Int} {rand : Nat} {cat : FoodFile}
    {cf : CacheFile} {f : String}
    (h : getRandomFood false now rand cat cf = (some f, CacheFile.entry f t)) :
    f ≠ "" := by
  intro hfe
  subst hfe
  unfold getRandomFood at h
  cases hcf : loadFoodCache cf with
  | some pr =>
    obtain ⟨food, ts⟩ := pr
    rw [hcf] at h
    by_cases hcond : food ≠ "" ∧ now - ts < CACHE_DURATION_MS
    · simp [hcond] at h
    · by_cases he : (loadFoodList cat).isEmpty
      · simp [hcond, he] at h
      · simp [hcond, he, saveFoodCache] at h
        have hne : loadFoodList cat ≠ [] := by simpa [List.isEmpty_iff] using he
        have hmem : (loadFoodList cat).getD (rand % (loadFoodList cat).length) ""
            ∈ loadFoodList cat := getD_mod_mem hne rand
        rw [List.getD_eq_getElem?_getD, h.1] at hmem
        exact (mem_loadFoodList hmem).1 rfl
  | none =>
    rw [hcf] at h
    by_cases he : (loadFoodList cat).isEmpty
    · simp [he] at h
    · simp [he, saveFoodCache] at h
      have hne : loadFoodList cat ≠ [] := by simpa [List.isEmpty_iff] using he
      have hmem : (loadFoodList cat).getD (rand % (loadFoodList cat).length) ""
          ∈ loadFoodList cat := getD_mod_mem hne rand
      rw [List.getD_eq_getElem?_getD, h.1] at hmem
      exact (mem_loadFoodList hmem).1 rfl

/-- Claim C9: loading the suggestion cache never propagates an error — a
missing or unparsable cache file yields the empty default — and
`getRandomFood` behaves on an unparsable cache file exactly as on a
missing one: the result is the same and so is every later cache load. -/
theorem c9_corrupt_cache_like_missing (forceNew : Bool) (now : Int) (rand : Nat)
    (cat : FoodFile) :
    loadFoodCache CacheFile.malformed = none ∧
    loadFoodCache CacheFile.missing = none ∧
    (getRandomFood forceNew now rand cat CacheFile.malformed).1 =
      (getRandomFood forceNew now rand cat CacheFile.missing).1 ∧
    loadFoodCache (getRandomFood forceNew now rand cat CacheFile.malformed).2 =
      loadFoodCache (getRandomFood forceNew now rand cat CacheFile.missing).2 := by
  refine ⟨rfl, rfl, ?_, ?_⟩ <;>
    cases forceNew <;> cases he : (loadFoodList cat).isEmpty <;>
      simp [getRandomFood, loadFoodCache, he]

/-- Claim C2 counterexample: starting from a missing cache, a call at time
0 persists the entry `("A", 0)`.  A call at time 43199999 (1 ms before
expiry) is a cache hit: it returns `"A"` and does not restamp.  A second
call only 1 ms later — so the two calls are within the 12-hour TTL of each
other — finds the entry stale and draws from the catalog, returning `"B"`.
The two calls return different items, refuting the claim that any two
non-forced calls less than a TTL apart agree. -/
theorem c2_two_calls_within_ttl_counterexample :
    getRandomFood false 0 0 (some ["A", "B"]) CacheFile.missing
      = (some ("A"), CacheFile.entry ("A") 0) ∧
    getRandomFood false 43199999 0 (some ["A", "B"]) (CacheFile.entry ("A") 0)
      = (some ("A"), CacheFile.entry ("A") 0) ∧
    getRandomFood false 43200000 1 (some ["A", "B"]) (CacheFile.entry ("A") 0)
      = (some ("B"), CacheFile.entry ("B") 43200000) ∧
    ((43200000 : Int) - 43199999 < CACHE_DURATION_MS) ∧
    ("A" : String) ≠ "B" := by
  refine ⟨?_, ?_, ?_, by decide, by decide⟩ <;> decide

/-- Claim C2 amended: when the first non-forced call leaves the cache
entry stamped with its own call time (in particular whenever it
repopulated the cache, the case the claim's own justification describes),
any second non-forced call within the TTL of that time is a cache hit and
returns the same item, for every catalog state and random draw. -/
theorem c2_second_call_same_within_ttl (cat : FoodFile) (cf : CacheFile)
    (t1 t2 : Int) (r1 r2 : Nat) (f : String)
    (h1 : getRandomFood false t1 r1 cat cf = (some f, CacheFile.entry f t1))
    (h2 : t2 - t1 < CACHE_DURATION_MS) :
    (getRandomFood false t2 r2 cat (getRandomFood false t1 r1 cat cf).2).1 = some f := by
  have hf : f ≠ "" := getRandomFood_persist_ne_empty h1
  rw [h1]
  simp [getRandomFood, loadFoodCache, hf, h2]

/-- Witness for the amended C2: a concrete first call that repopulates the
cache, followed by a second call 5 ms later. -/
theorem c2_second_call_same_within_ttl_witness :
    (getRandomFood false 5 3 (some ["Pho"])
      (getRandomFood false 0 0 (some ["Pho"]) CacheFile.missing).2).1 = some ("Pho") :=
  c2_second_call_same_within_ttl (some ["Pho"]) CacheFile.missing 0 5 0 3 ("Pho")
    (by decide) (by decide)

/-- Claim C5 counterexample: with an empty catalog file and a pre-existing
cache entry stamped 0, a forced refresh at time 100 returns `none` and
leaves the old entry untouched: no cache entry stamped with the call time
is persisted, refuting the claim that a forced call always resets the TTL
window even on an empty catalog. -/
theorem c5_forceNew_empty_catalog_counterexample :
    (getRandomFood true 100 0 (some []) (CacheFile.entry ("Pho") 0)).1 = none ∧
    (getRandomFood true 100 0 (some []) (CacheFile.entry ("Pho") 0)).2
      = CacheFile.entry ("Pho") 0 ∧
    ∀ f : String, (getRandomFood true 100 0 (some []) (CacheFile.entry ("Pho") 0)).2
      ≠ CacheFile.entry f 100 := by
  refine ⟨rfl, rfl, ?_⟩
  intro f h
  rw [show (getRandomFood true 100 0 (some []) (CacheFile.entry ("Pho") 0)).2
    = CacheFile.entry ("Pho") 0 from rfl] at h
  simp at h

/-- Claim C5 amended: a forced refresh persists a fresh cache entry
stamped with the call time and returns the drawn item whenever the
catalog is non-empty; on an empty catalog it returns `none` and leaves
the cache file unchanged. -/
theorem c5_forceNew_restamps_on_nonempty (now : Int) (rand : Nat)
    (cat : FoodFile) (cf : CacheFile) (h : loadFoodList cat ≠ []) :
    ∃ f, f ∈ loadFoodList cat ∧
      getRandomFood true now rand cat cf = (some f, CacheFile.entry f now) := by
  have he : (loadFoodList cat).isEmpty = false := by
    simp [List.isEmpty_iff, h]
  refine ⟨(loadFoodList cat).getD (rand % (loadFoodList cat).length) "",
    getD_mod_mem h rand, ?_⟩
  simp [getRandomFood, he, saveFoodCache]

/-- Witness for the amended C5 on a concrete non-empty catalog. -/
theorem c5_forceNew_restamps_on_nonempty_witness :
    ∃ f, f ∈ loadFoodList (some ["Pho"]) ∧
      getRandomFood true 5 0 (some ["Pho"]) CacheFile.missing
        = (some f, CacheFile.entry f 5) :=
  c5_forceNew_restamps_on_nonempty 5 0 (some ["Pho"]) CacheFile.missing (by decide)

/-! ### The catalog sort order is total and transitive -/

instance : IsTotal String jsLe := by
  constructor
  intro a b
  show lexLe a.data b.data = true ∨ lexLe b.data a.data = true
  generalize a.data = x
  generalize b.data = y
  induction x generalizing y with
  | nil => left; rfl
  | cons c cs ih =>
    cases y with
    | nil => right; rfl
    | cons d ds =>
      rcases lt_trichotomy c d with h | h | h
      · left; simp [lexLe, h]
      · subst h
        rcases ih ds with h2 | h2 <;> simp [lexLe, lt_irrefl, h2]
      · right; simp [lexLe, h]

instance : IsTrans String jsLe := by
  constructor
  intro a b c
  show lexLe a.data b.data = true → lexLe b.data c.data = true →
    lexLe a.data c.data = true
  generalize a.data = x
  generalize b.data = y
  generalize c.data = z
  induction x generalizing y z with
  | nil => intro _ _; rfl
  | cons u us ih =>
    intro h1 h2
    cases y with
    | nil => simp [lexLe] at h1
    | cons v vs =>
      cases z with
      | nil => simp [lexLe] at h2
      | cons w ws =>
        simp only [lexLe] at h1 h2 ⊢
        rcases lt_trichotomy u v with huv | huv | huv
        · rcases lt_trichotomy v w with hvw | hvw | hvw
          · simp [huv.trans hvw]
          · subst hvw; simp [huv]
          · simp [lt_asymm hvw, hvw] at h2
        · subst huv
          rcases lt_trichotomy u w with hvw | hvw | hvw
          · simp [hvw]
          · subst hvw
            simp [lt_irrefl] at h1 h2 ⊢
            exact ih vs ws h1 h2
          · simp [lt_asymm hvw, hvw] at h2
        · simp [lt_asymm huv, huv] at h1

/-- Claim C3 counterexample: on a catalog with 0 loadable items, an
out-of-range index fails with the fixed message `Food list is empty`,
not with a message reporting the valid range, so the range-message clause
of the claim does not hold at n = 0 (the file is still unchanged). -/
theorem c3_empty_catalog_counterexample :
    (removeFoodByIndex 2 (some []) CacheFile.missing).1.success = false ∧
    (removeFoodByIndex 2 (some []) CacheFile.missing).1.message = "Food list is empty" ∧
    (removeFoodByIndex 2 (some []) CacheFile.missing).1.message
      ≠ "Invalid index. Please use a number between 1 and 0" ∧
    (removeFoodByIndex 2 (some []) CacheFile.missing).2 = (some [], CacheFile.missing) := by
  refine ⟨rfl, rfl, ?_, rfl⟩
  decide

/-- Claim C3 (amended to non-empty catalogs): `removeFoodByIndex` sorts
the loaded items lexicographically (the sort is a sorted permutation of
the load); for `1 ≤ i ≤ n` it succeeds, removes the element at sorted
position `i` and rewrites the file with the remaining items in sorted
order; for `i < 1` or `i > n` it fails with the message reporting the
valid range `1..n` and leaves both the file and the cache unchanged. -/
theorem c3_removeByIndex_sorted_positional (index : Int) (cat : FoodFile)
    (cf : CacheFile) (hne : loadFoodList cat ≠ []) :
    List.Sorted jsLe (jsSort (loadFoodList cat)) ∧
    List.Perm (jsSort (loadFoodList cat)) (loadFoodList cat) ∧
    (1 ≤ index → index ≤ ((loadFoodList cat).length : Int) →
      (removeFoodByIndex index cat cf).1.success = true ∧
      (removeFoodByIndex index cat cf).1.message
        = "Removed '" ++ (jsSort (loadFoodList cat)).getD (index - 1).toNat ""
          ++ "' from the food list" ∧
      (removeFoodByIndex index cat cf).2.1
        = some ((jsSort (loadFoodList cat)).eraseIdx (index - 1).toNat)) ∧
    ((index < 1 ∨ ((loadFoodList cat).length : Int) < index) →
      (removeFoodByIndex index cat cf).1.success = false ∧
      (removeFoodByIndex index cat cf).1.message
        = "Invalid index. Please use a number between 1 and "
          ++ toString (loadFoodList cat).length ∧
      (removeFoodByIndex index cat cf).2 = (cat, cf)) := by
  have he : (loadFoodList cat).isEmpty = false := by
    simp [List.isEmpty_iff, hne]
  have hlen : (jsSort (loadFoodList cat)).length = (loadFoodList cat).length :=
    (List.perm_insertionSort jsLe (loadFoodList cat)).length_eq
  refine ⟨List.sorted_insertionSort jsLe (loadFoodList cat),
    List.perm_insertionSort jsLe (loadFoodList cat), ?_, ?_⟩
  · intro hlo hhi
    have htn : (index - 1).toNat = index.toNat - 1 := by omega
    have hcond : ¬(index < 1 ∨ ((jsSort (loadFoodList cat)).length : Int) ≤ index - 1) := by
      rw [hlen]
      omega
    refine ⟨?_, ?_, ?_⟩ <;>
      simp [removeFoodByIndex, he, hcond, htn, List.getD_eq_getElem?_getD]
  · intro hout
    have hcond : index < 1 ∨ (((loadFoodList cat).length : Int) ≤ index - 1) := by omega
    refine ⟨?_, ?_, ?_⟩ <;> simp [removeFoodByIndex, he, hlen, hcond]

/-- Witness for the amended C3 on the two-item catalog `["B", "A"]`:
index 1 removes the lexicographically smallest item `"A"`. -/
theorem c3_removeByIndex_sorted_positional_witness :
    (removeFoodByIndex 1 (some ["B", "A"]) CacheFile.missing).1.success = true ∧
    (removeFoodByIndex 1 (some ["B", "A"]) CacheFile.missing).2.1
      = some ((jsSort (loadFoodList (some ["B", "A"]))).eraseIdx ((1 : Int) - 1).toNat) :=
  ⟨((c3_removeByIndex_sorted_positional 1 (some ["B", "A"]) CacheFile.missing
      (by decide)).2.2.1 (by decide) (by decide)).1,
    ((c3_removeByIndex_sorted_positional 1 (some ["B", "A"]) CacheFile.missing
      (by decide)).2.2.1 (by decide) (by decide)).2.2⟩

/-- Claim C4: on at least one case-insensitive exact match,
`removeFoodFromList` succeeds, rewrites the file with exactly the items
whose lowercase form differs from the lowercased trimmed input (so all
matches are removed, not just the first), and the cache file is cleared
exactly when the cached value is case-insensitively among the removed
matches — the final conjunct characterizes that condition. -/
theorem c4_removeByValue_removes_all_matches (food : String) (cat : FoodFile)
    (cf : CacheFile)
    (h : (loadFoodList cat).filter
      (fun f => jsLower f == jsLower (jsTrim food)) ≠ []) :
    (removeFoodFromList food cat cf).1.success = true ∧
    (removeFoodFromList food cat cf).2.1
      = some ((loadFoodList cat).filter
          (fun f => !(jsLower f == jsLower (jsTrim food)))) ∧
    (removeFoodFromList food cat cf).2.2
      = (if cachedAmong cf ((loadFoodList cat).filter
            (fun f => jsLower f == jsLower (jsTrim food)))
          then CacheFile.missing else cf) ∧
    (cachedAmong cf ((loadFoodList cat).filter
        (fun f => jsLower f == jsLower (jsTrim food))) = true ↔
      ∃ cfood ts, loadFoodCache cf = some (cfood, ts) ∧ cfood ≠ "" ∧
        ∃ m ∈ (loadFoodList cat).filter (fun f => jsLower f == jsLower (jsTrim food)),
          jsLower m = jsLower cfood) := by
  have hne : loadFoodList cat ≠ [] := by
    intro he
    rw [he] at h
    exact h rfl
  have he : (loadFoodList cat).isEmpty = false := by
    simp [List.isEmpty_iff, hne]
  have hm : ((loadFoodList cat).filter
      (fun f => jsLower f == jsLower (jsTrim food))).isEmpty = false := by
    simp [List.isEmpty_iff, h]
  refine ⟨?_, ?_, ?_, ?_⟩
  · by_cases hc : 1 < ((loadFoodList cat).filter
        (fun f => jsLower f == jsLower (jsTrim food))).length <;>
      simp [removeFoodFromList, he, hm, hc]
  · by_cases hc : 1 < ((loadFoodList cat).filter
        (fun f => jsLower f == jsLower (jsTrim food))).length <;>
      simp [removeFoodFromList, he, hm, hc]
  · by_cases hc : 1 < ((loadFoodList cat).filter
        (fun f => jsLower f == jsLower (jsTrim food))).length <;>
      simp [removeFoodFromList, he, hm, hc]
  · cases hcf : loadFoodCache cf with
    | none => simp [cachedAmong, hcf]
    | some pr =>
      obtain ⟨f0, ts0⟩ := pr
      simp only [cachedAmong, hcf, List.any_eq_true]
      simp
      intro _
      constructor
      · rintro ⟨x, hx1, hx2, hx3⟩
        exact ⟨x, ⟨hx1, hx2⟩, hx3⟩
      · rintro ⟨m, ⟨hm1, hm2⟩, hm3⟩
        exact ⟨m, hm1, hm2, hm3⟩

/-- Witness for C4: removing `" PHO "` from `["Pho", "pho", "Bun"]` with
`"pho"` cached succeeds. -/
theorem c4_removeByValue_removes_all_matches_witness :
    (removeFoodFromList (" PHO ") (some ["Pho", "pho", "Bun"])
      (CacheFile.entry ("pho") 3)).1.success = true ∧
    (removeFoodFromList (" PHO ") (some ["Pho", "pho", "Bun"])
      (CacheFile.entry ("pho") 3)).2.1
      = some ((loadFoodList (some ["Pho", "pho", "Bun"])).filter
          (fun f => !(jsLower f == jsLower (jsTrim (" PHO "))))) :=
  ⟨(c4_removeByValue_removes_all_matches (" PHO ") (some ["Pho", "pho", "Bun"])
      (CacheFile.entry ("pho") 3) (by decide)).1,
    (c4_removeByValue_removes_all_matches (" PHO ") (some ["Pho", "pho", "Bun"])
      (CacheFile.entry ("pho") 3) (by decide)).2.1⟩

/-- Claim C8: with no case-insensitive exact match but at least one
case-insensitive substring match, `removeFoodFromList` mutates nothing —
the catalog file and the cache file both pass through unchanged — and
fails with the message listing the first at most 5 candidates plus the
count of the remaining ones. -/
theorem c8_removeByValue_fuzzy_no_mutation (food : String) (cat : FoodFile)
    (cf : CacheFile)
    (hm : (loadFoodList cat).filter
      (fun f => jsLower f == jsLower (jsTrim food)) = [])
    (hp : (loadFoodList cat).filter
      (fun f => jsIncludes (jsLower f) (jsLower (jsTrim food))) ≠ []) :
    (removeFoodFromList food cat cf).1.success = false ∧
    (removeFoodFromList food cat cf).2.1 = cat ∧
    (removeFoodFromList food cat cf).2.2 = cf ∧
    (removeFoodFromList food cat cf).1.message
      = "Food '" ++ food ++ "' not found exactly. Did you mean one of: "
        ++ fuzzyListText (((loadFoodList cat).filter
            (fun f => jsIncludes (jsLower f) (jsLower (jsTrim food)))).take 5)
        ++ moreText ((loadFoodList cat).filter
            (fun f => jsIncludes (jsLower f) (jsLower (jsTrim food)))).length ∧
    (((loadFoodList cat).filter
        (fun f => jsIncludes (jsLower f) (jsLower (jsTrim food)))).take 5).length ≤ 5 := by
  have hne : loadFoodList cat ≠ [] := by
    intro he
    rw [he] at hp
    exact hp rfl
  have he : (loadFoodList cat).isEmpty = false := by
    simp [List.isEmpty_iff, hne]
  have hme : ((loadFoodList cat).filter
      (fun f => jsLower f == jsLower (jsTrim food))).isEmpty = true := by
    simp [List.isEmpty_iff, hm]
  have hpe : ((loadFoodList cat).filter
      (fun f => jsIncludes (jsLower f) (jsLower (jsTrim food)))).isEmpty = false := by
    simp [List.isEmpty_iff, hp]
  refine ⟨?_, ?_, ?_, ?_, ?_⟩
  · simp [removeFoodFromList, he, hme, hpe]
  · simp [removeFoodFromList, he, hme, hpe]
  · simp [removeFoodFromList, he, hme, hpe]
  · simp [removeFoodFromList, he, hme, hpe]
  · rw [List.length_take]
    omega

/-- Witness for C8: `"pho"` has no exact match in `["Pho Bo", "Bun"]` but
one substring match, and nothing is mutated. -/
theorem c8_removeByValue_fuzzy_no_mutation_witness :
    (removeFoodFromList ("pho") (some ["Pho Bo", "Bun"]) CacheFile.missing).1.success
      = false ∧
    (removeFoodFromList ("pho") (some ["Pho Bo", "Bun"]) CacheFile.missing).2.1
      = some ["Pho Bo", "Bun"] ∧
    (removeFoodFromList ("pho") (some ["Pho Bo", "Bun"]) CacheFile.missing).2.2
      = CacheFile.missing :=
  ⟨(c8_removeByValue_fuzzy_no_mutation ("pho") (some ["Pho Bo", "Bun"])
      CacheFile.missing (by decide) (by decide)).1,
    (c8_removeByValue_fuzzy_no_mutation ("pho") (some ["Pho Bo", "Bun"])
      CacheFile.missing (by decide) (by decide)).2.1,
    (c8_removeByValue_fuzzy_no_mutation ("pho") (some ["Pho Bo", "Bun"])
      CacheFile.missing (by decide) (by decide)).2.2.1⟩

/-! ### Lemmas about the admin-list dedup and load -/

theorem mem_foldl_dedup (l : List String) (acc : List String) (a : String) :
    a ∈ l.foldl (fun acc x => if x ∈ acc then acc else acc ++ [x]) acc ↔
      a ∈ acc ∨ a ∈ l := by
  induction l generalizing acc with
  | nil => simp
  | cons x xs ih =>
    simp only [List.foldl_cons]
    rw [ih]
    by_cases hx : x ∈ acc
    · rw [if_pos hx]
      constructor
      · rintro (hh | hh)
        · exact Or.inl hh
        · exact Or.inr (List.mem_cons_of_mem x hh)
      · rintro (hh | hh)
        · exact Or.inl hh
        · rcases List.mem_cons.mp hh with hh | hh
          · exact Or.inl (hh ▸ hx)
          · exact Or.inr hh
    · rw [if_neg hx]
      simp [List.mem_append, or_assoc]

theorem mem_jsSetDedup (l : List String) (a : String) :
    a ∈ jsSetDedup l ↔ a ∈ l := by
  unfold jsSetDedup
  rw [mem_foldl_dedup]
  simp

theorem nodup_foldl_dedup (l : List String) (acc : List String) (h : acc.Nodup) :
    (l.foldl (fun acc x => if x ∈ acc then acc else acc ++ [x]) acc).Nodup := by
  induction l generalizing acc with
  | nil => simpa using h
  | cons x xs ih =>
    simp only [List.foldl_cons]
    by_cases hx : x ∈ acc
    · rw [if_pos hx]
      exact ih acc h
    · rw [if_neg hx]
      apply ih
      simp [List.nodup_append, h, hx]

theorem nodup_jsSetDedup (l : List String) : (jsSetDedup l).Nodup :=
  nodup_foldl_dedup l [] (by simp)

/-- The seed admin is in every loaded admin list, whatever the file
contents. -/
theorem seed_mem_loadAdmins (af : AdminFile) : "nguyenviet02" ∈ loadAdmins af := by
  cases af with
  | missing => simp [loadAdmins, DEFAULT_ADMINS]
  | malformed => simp [loadAdmins, DEFAULT_ADMINS]
  | nonarray => decide
  | arr l =>
    simp only [loadAdmins]
    rw [List.mem_filter]
    refine ⟨?_, by decide⟩
    rw [mem_jsSetDedup, List.mem_map]
    refine ⟨JVal.str ("nguyenviet02"), ?_, by decide⟩
    apply List.mem_append_left
    simp [DEFAULT_ADMINS]

/-- The seed admin passes the `isAdmin` membership query in every admin
file state. -/
theorem seed_isAdmin (af : AdminFile) : isAdmin ("nguyenviet02") af = true := by
  have hstep : isAdmin ("nguyenviet02") af
      = (loadAdmins af).any (fun u => jsLower u == jsLower (stripAt ("nguyenviet02"))) := by
    simp [isAdmin]
  rw [hstep, List.any_eq_true]
  exact ⟨"nguyenviet02", seed_mem_loadAdmins af, by decide⟩

/-- Claim C6: after every finite sequence of registry operations from any
registry state — including explicit removals of the seed username —
the seed admin `nguyenviet02` still satisfies the Privileged membership
query, because `loadAdmins` merges the seed list back in on every load;
yet `removeAdmin` on the seed reports success from any such state. -/
theorem c6_seed_admin_nonremovable (ops : List RegistryOp) (st : Registry) :
    isAdmin ("nguyenviet02") (runRegistryOps st ops).admins = true ∧
    (removeAdmin ("nguyenviet02") (runRegistryOps st ops).admins).1.success = true := by
  refine ⟨seed_isAdmin _, ?_⟩
  have hany : ((loadAdmins (runRegistryOps st ops).admins).findIdx?
      (fun u => jsLower u == jsLower (stripAt ("nguyenviet02")))).isSome := by
    rw [List.findIdx?_isSome]
    rw [List.any_eq_true]
    exact ⟨"nguyenviet02", seed_mem_loadAdmins _, by decide⟩
  obtain ⟨i, hi⟩ := Option.isSome_iff_exists.mp hany
  simp [removeAdmin, hi]

/-- Claim C7 counterexample: a persisted admin entry differing from the
seed only in letter case survives the dedup — `Array.from(new Set(...))`
dedups by exact equality, not case-insensitively — so two entries that
differ only in case both appear in the loaded sequence. -/
theorem c7_case_sensitive_dedup_counterexample :
    loadAdmins (AdminFile.arr [JVal.str ("Nguyenviet02")])
      = ["nguyenviet02", "Nguyenviet02"] ∧
    ("nguyenviet02" : String) ≠ "Nguyenviet02" ∧
    jsLower ("nguyenviet02") = jsLower ("Nguyenviet02") := by
  refine ⟨by decide, by decide, by decide⟩

/-- Claim C7 amended: the Privileged load is the union of the persisted
usernames (normalized: strings trimmed, non-strings emptied) with the
seed list, every returned entry trimmed and non-empty, deduplicated by
exact case-SENSITIVE equality (so case variants may coexist, as the
counterexample shows). -/
theorem c7_loadAdmins_union_trimmed_dedup (l : List JVal) :
    (∀ s ∈ loadAdmins (AdminFile.arr l), s ≠ "" ∧ jsTrim s = s) ∧
    (∀ d ∈ DEFAULT_ADMINS, d ∈ loadAdmins (AdminFile.arr l)) ∧
    (loadAdmins (AdminFile.arr l)).Nodup ∧
    (∀ s, s ∈ loadAdmins (AdminFile.arr l) ↔
      (s ≠ "" ∧ s ∈ (DEFAULT_ADMINS.map JVal.str ++ l).map entryNorm)) := by
  have hiff : ∀ s, s ∈ loadAdmins (AdminFile.arr l) ↔
      (s ≠ "" ∧ s ∈ (DEFAULT_ADMINS.map JVal.str ++ l).map entryNorm) := by
    intro s
    simp only [loadAdmins]
    rw [List.mem_filter, mem_jsSetDedup]
    constructor
    · rintro ⟨hmem, hne⟩
      exact ⟨by simpa using hne, hmem⟩
    · rintro ⟨hne, hmem⟩
      exact ⟨hmem, by simpa using hne⟩
  refine ⟨?_, ?_, ?_, hiff⟩
  · intro s hs
    obtain ⟨hne, hmem⟩ := (hiff s).mp hs
    refine ⟨hne, ?_⟩
    obtain ⟨jv, _, hjv⟩ := List.mem_map.mp hmem
    cases jv with
    | str s0 =>
      rw [← hjv]
      exact jsTrim_jsTrim s0
    | other =>
      exact absurd hjv.symm hne
  · intro d hd
    have hd1 : d = "nguyenviet02" := by simpa [DEFAULT_ADMINS] using hd
    subst hd1
    exact seed_mem_loadAdmins (AdminFile.arr l)
  · simp only [loadAdmins]
    exact (nodup_jsSetDedup _).filter _

/-- Witness for the amended C7: with one padded persisted entry, both the
seed and the trimmed entry are loaded. -/
theorem c7_loadAdmins_union_trimmed_dedup_witness :
    "nguyenviet02" ∈ loadAdmins (AdminFile.arr [JVal.str (" alice ")]) ∧
    ("alice" ∈ loadAdmins (AdminFile.arr [JVal.str (" alice ")])) :=
  ⟨(c7_loadAdmins_union_trimmed_dedup [JVal.str (" alice ")]).2.1 ("nguyenviet02")
      (by decide),
    ((c7_loadAdmins_union_trimmed_dedup [JVal.str (" alice ")]).2.2.2 ("alice")).mpr
      (by decide)⟩

/-- Claim C1 counterexample: with `alice` in the Restricted store and a
fresh admin store, `addAdmin` succeeds and makes `alice` Privileged, yet
`alice` is still a member of the Restricted set afterwards — the registry
does not remove her from Restricted on promotion, refuting the claimed
mutual-exclusion invariant. -/
theorem c1_promotion_counterexample :
    ((addAdminR ("alice") ⟨AdminFile.missing, RestrictedFile.stored ["alice"]⟩).1).success
      = true ∧
    isAdmin ("alice")
      ((addAdminR ("alice") ⟨AdminFile.missing, RestrictedFile.stored ["alice"]⟩).2).admins
      = true ∧
    (isRestrictedUser ("alice")
      ((addAdminR ("alice") ⟨AdminFile.missing, RestrictedFile.stored ["alice"]⟩).2).restricted).1
      = true := by
  refine ⟨by decide, by decide, by decide⟩

/-- The `isAdmin` query succeeds on a username right after `addAdmin`,
provided its @-stripped form is non-empty and trim-fixed (the load trims
stored entries, so padding would break the round trip). -/
theorem isAdmin_after_addAdmin (username : String) (af : AdminFile)
    (h1 : stripAt username ≠ "") (h2 : jsTrim (stripAt username) = stripAt username) :
    isAdmin username (addAdmin username af).2 = true := by
  have hu : username ≠ "" := by
    intro he
    subst he
    exact h1 rfl
  by_cases hmem : (loadAdmins af).any
      (fun u => jsLower u == jsLower (stripAt username)) = true
  · have hstep : (addAdmin username af).2 = af := by
      simp [addAdmin, hu, hmem]
    rw [hstep]
    simp [isAdmin, hu, hmem]
  · have hstep : (addAdmin username af).2
        = saveAdmins (loadAdmins af ++ [stripAt username]) := by
      simp [addAdmin, hu, hmem]
    rw [hstep]
    have hq : isAdmin username (saveAdmins (loadAdmins af ++ [stripAt username]))
        = (loadAdmins (saveAdmins (loadAdmins af ++ [stripAt username]))).any
            (fun u => jsLower u == jsLower (stripAt username)) := by
      simp [isAdmin, hu]
    rw [hq, List.any_eq_true]
    refine ⟨stripAt username, ?_, by simp⟩
    simp only [saveAdmins, loadAdmins]
    rw [List.mem_filter, mem_jsSetDedup]
    constructor
    · rw [List.mem_map]
      refine ⟨JVal.str (stripAt username), ?_, h2⟩
      apply List.mem_append_right
      rw [List.mem_map]
      exact ⟨stripAt username, List.mem_append_right _ (by simp), rfl⟩
    · simpa using h1

/-- Claim C1 amended: promoting a username with `addAdmin` makes it a
member of the Privileged set (for a non-empty, trim-fixed @-stripped
username), but writes nothing to the Restricted store: the restricted
file after the call equals the one before, so a restricted username stays
restricted — mutual exclusion is not enforced by the registry. -/
theorem c1_addAdmin_leaves_restricted (username : String) (st : Registry)
    (h1 : stripAt username ≠ "") (h2 : jsTrim (stripAt username) = stripAt username) :
    isAdmin username ((addAdminR username st).2).admins = true ∧
    ((addAdminR username st).2).restricted = st.restricted :=
  ⟨isAdmin_after_addAdmin username st.admins h1 h2, rfl⟩

/-- Witness for the amended C1 at the counterexample state. -/
theorem c1_addAdmin_leaves_restricted_witness :
    isAdmin ("alice")
      ((addAdminR ("alice") ⟨AdminFile.missing, RestrictedFile.stored ["alice"]⟩).2).admins
      = true ∧
    ((addAdminR ("alice") ⟨AdminFile.missing, RestrictedFile.stored ["alice"]⟩).2).restricted
      = RestrictedFile.stored ["alice"] :=
  c1_addAdmin_leaves_restricted ("alice")
    ⟨AdminFile.missing, RestrictedFile.stored ["alice"]⟩ (by decide) (by decide)

end FoodBot
